import Mathlib

/-!
Shallow embedding of the OptionPricingLib C++ library over the reals.

Sources embedded:
  * `include/OptionsPricing/Common.hpp` : option/exercise enums, `normalCDF`,
    the base `Option` class constructor with `validateInputs`.
  * `include/OptionsPricing/BlackScholes.hpp` : `BlackScholesOption::price`
    and the `ImpliedVolatilityCalculator::calculateImpliedVolatility` bisection.
  * `include/OptionsPricing/BinomialTree.hpp` : `BinomialTreeOption::price`,
    `delta`, `gamma`, constructor.
  * `TrinomialTree.hpp` (shipped as `src/unnamed/part_001`) :
    `TrinomialTreeOption::price`, `delta`, `gamma`, constructor.
  * `include/OptionsPricing/OptionFactory.hpp` : `OptionFactory::createOption`.

C++ `double` arithmetic is embedded as real arithmetic; thrown exceptions
become `Except PricingError`; an out-of-bounds `std::vector` read (undefined
behaviour in C++) is modelled as `Option.none`.  The C library `erf` consumed
by `normalCDF` is modelled by its mathematical definition
`erf x = 2/sqrt pi * integral of exp (-t^2) from 0 to x`.
-/

noncomputable section

namespace OptionsPricing

/-- Option types, from `Common.hpp` (`enum class OptionType`). -/
inductive OptionType where
  | Call
  | Put
deriving DecidableEq

/-- Exercise types, from `Common.hpp` (`enum class ExerciseType`). -/
inductive ExerciseType where
  | European
  | American
deriving DecidableEq

/-- The distinct exception conditions thrown by the library.  Constructors
tagged with the C++ exception class and message they stand for. -/
inductive PricingError where
  /-- `std::invalid_argument("Spot price must be positive")` -/
  | spotNotPositive
  /-- `std::invalid_argument("Strike price must be positive")` -/
  | strikeNotPositive
  /-- `std::invalid_argument("Volatility must be positive")` -/
  | volatilityNotPositive
  /-- `std::invalid_argument("Time to maturity must be positive")` -/
  | maturityNotPositive
  /-- `std::invalid_argument("Black-Scholes model only applicable for European options")`,
  thrown by `BlackScholesOption::price`. -/
  | bsPriceOnlyEuropean
  /-- `std::invalid_argument("Black-Scholes can only price European options")`,
  thrown by `OptionFactory::createOption`. -/
  | bsFactoryOnlyEuropean
  /-- `std::invalid_argument("Unknown pricing method: ...")` -/
  | unknownMethod
  /-- `std::runtime_error("Target price is outside the bounds of possible option prices")` -/
  | ivOutOfBounds
  /-- `std::runtime_error("Failed to converge to implied volatility within tolerance")` -/
  | ivNoConvergence
deriving DecidableEq

/-- Whether the exception condition is a `std::invalid_argument` (as opposed to
the two `std::runtime_error` conditions of the implied-volatility solver). -/
def PricingError.isInvalidArgument : PricingError → Bool
  | .ivOutOfBounds => false
  | .ivNoConvergence => false
  | _ => true

/-- The frozen contract fields of the base `Option` class (`Common.hpp`).
The C++ class exposes only `const` getters and no mutator, so a constructed
instance is exactly this record of its six constructor arguments. -/
structure OptionBase where
  spot : ℝ
  strike : ℝ
  riskFreeRate : ℝ
  volatility : ℝ
  timeToMaturity : ℝ
  type : OptionType
  exerciseType : ExerciseType

/-- The `Option` base-class constructor: stores the fields, then
`validateInputs` throws `std::invalid_argument` on the first non-positive
field among spot, strike, volatility and time-to-maturity (in that order).
The risk-free rate is not checked.  Construction aborts on a throw, so the
result is either an error or a fully initialised instance. -/
def mkOption (spot strike riskFreeRate volatility timeToMaturity : ℝ)
    (type : OptionType) (exerciseType : ExerciseType) :
    Except PricingError OptionBase :=
  if spot ≤ 0 then .error .spotNotPositive
  else if strike ≤ 0 then .error .strikeNotPositive
  else if volatility ≤ 0 then .error .volatilityNotPositive
  else if timeToMaturity ≤ 0 then .error .maturityNotPositive
  else .ok ⟨spot, strike, riskFreeRate, volatility, timeToMaturity, type, exerciseType⟩

/-- Mathematical model of the C library error function `erf` used by
`normalCDF` in `Common.hpp`. -/
def erf (x : ℝ) : ℝ :=
  2 / Real.sqrt Real.pi * ∫ t in (0:ℝ)..x, Real.exp (-t ^ 2)

/-- `normalCDF` from `Common.hpp`: `0.5 * (1.0 + erf(x / sqrt(2.0)))`. -/
def normalCDF (x : ℝ) : ℝ :=
  0.5 * (1 + erf (x / Real.sqrt 2))

/-- The `d1` term computed inside `BlackScholesOption::price`. -/
def bsD1 (S K r sigma tau : ℝ) : ℝ :=
  (Real.log (S / K) + (r + sigma * sigma / 2) * tau) / (sigma * Real.sqrt tau)

/-- The `d2` term computed inside `BlackScholesOption::price`. -/
def bsD2 (S K r sigma tau : ℝ) : ℝ :=
  bsD1 S K r sigma tau - sigma * Real.sqrt tau

/-- The closed-form price returned by `BlackScholesOption::price` once the
exercise-style guard has passed (`BlackScholes.hpp`). -/
def bsPriceFormula (S K r sigma tau : ℝ) (type : OptionType) : ℝ :=
  match type with
  | .Call => S * normalCDF (bsD1 S K r sigma tau)
      - K * Real.exp (-r * tau) * normalCDF (bsD2 S K r sigma tau)
  | .Put => K * Real.exp (-r * tau) * normalCDF (-bsD2 S K r sigma tau)
      - S * normalCDF (-bsD1 S K r sigma tau)

/-- `BlackScholesOption` constructor (`BlackScholes.hpp`): it takes no
exercise-style argument and forwards `ExerciseType::European` to the base
class constructor unconditionally. -/
def mkBlackScholesOption (spot strike riskFreeRate volatility timeToMaturity : ℝ)
    (type : OptionType) : Except PricingError OptionBase :=
  mkOption spot strike riskFreeRate volatility timeToMaturity type .European

/-- `BlackScholesOption::price`: throws `std::invalid_argument` when the stored
exercise style is not European, otherwise returns the closed-form price. -/
def blackScholesPrice (o : OptionBase) : Except PricingError ℝ :=
  if o.exerciseType ≠ .European then .error .bsPriceOnlyEuropean
  else .ok (bsPriceFormula o.spot o.strike o.riskFreeRate o.volatility o.timeToMaturity o.type)

/-- The immediate-exercise value `stockPrice - strike_` (call) or
`strike_ - stockPrice` (put) compared against the continuation value in the
American branch of both tree pricers. -/
def intrinsic (type : OptionType) (K sp : ℝ) : ℝ :=
  match type with
  | .Call => sp - K
  | .Put => K - sp

/-- The terminal payoff `max(0, S_T - K)` (call) / `max(0, K - S_T)` (put)
assigned at maturity by both tree pricers. -/
def payoff (type : OptionType) (K sp : ℝ) : ℝ :=
  match type with
  | .Call => max 0 (sp - K)
  | .Put => max 0 (K - sp)

/-- `dt = timeToMaturity_ / steps_` in `BinomialTreeOption::price`. -/
def binomDt (tau : ℝ) (N : ℕ) : ℝ := tau / N

/-- `u = exp(volatility_ * sqrt(dt))` in `BinomialTreeOption::price`. -/
def binomU (sigma tau : ℝ) (N : ℕ) : ℝ := Real.exp (sigma * Real.sqrt (binomDt tau N))

/-- `d = 1.0 / u` in `BinomialTreeOption::price`. -/
def binomD (sigma tau : ℝ) (N : ℕ) : ℝ := 1 / binomU sigma tau N

/-- `p = (exp(riskFreeRate_ * dt) - d) / (u - d)` in `BinomialTreeOption::price`. -/
def binomP (r sigma tau : ℝ) (N : ℕ) : ℝ :=
  (Real.exp (r * binomDt tau N) - binomD sigma tau N) / (binomU sigma tau N - binomD sigma tau N)

/-- The terminal layer of `BinomialTreeOption::price`:
`optionValues[i] = payoff(spot_ * pow(u, steps_ - i) * pow(d, i))` for
`i = 0 .. steps_`. -/
def binomTerminal (c : OptionBase) (N : ℕ) (i : ℕ) : ℝ :=
  payoff c.type c.strike
    (c.spot * binomU c.volatility c.timeToMaturity N ^ (N - i)
            * binomD c.volatility c.timeToMaturity N ^ i)

/-- One backward sweep of `BinomialTreeOption::price` at step `j`: node `i`
becomes `exp(-r*dt) * (p * V[i] + (1-p) * V[i+1])`, then for American style the
maximum with the immediate-exercise value at `stockPrice = spot_*u^(j-i)*d^i`.
The C++ loop updates `optionValues` in place with `i` ascending, but each
update reads only positions `i` and `i+1`, and position `i+1` is written
after being read, so the in-place sweep computes exactly this map of the
previous layer. -/
def binomStep (c : OptionBase) (N : ℕ) (j : ℕ) (V : ℕ → ℝ) (i : ℕ) : ℝ :=
  let stockPrice := c.spot * binomU c.volatility c.timeToMaturity N ^ (j - i)
                           * binomD c.volatility c.timeToMaturity N ^ i
  let optionValue := Real.exp (-c.riskFreeRate * binomDt c.timeToMaturity N)
      * (binomP c.riskFreeRate c.volatility c.timeToMaturity N * V i
         + (1 - binomP c.riskFreeRate c.volatility c.timeToMaturity N) * V (i + 1))
  if c.exerciseType = .American then max optionValue (intrinsic c.type c.strike stockPrice)
  else optionValue

/-- The layers of `BinomialTreeOption::price`: `binomLayer c N k` is the
content of `optionValues` after `k` backward sweeps, i.e. the layer of time
step `j = N - k`; `k = 0` is the terminal layer. -/
def binomLayer (c : OptionBase) (N : ℕ) : ℕ → ℕ → ℝ
  | 0 => binomTerminal c N
  | k + 1 => binomStep c N (N - (k + 1)) (binomLayer c N k)

/-- `BinomialTreeOption::price`: run all `steps_` backward sweeps and return
`optionValues[0]`. -/
def binomialTreePrice (c : OptionBase) (N : ℕ) : ℝ :=
  binomLayer c N N 0

/-- `BinomialTreeOption` constructor: forwards the six contract fields to the
base-class constructor (which validates them) and stores `steps_` unchecked. -/
def mkBinomialTreeOption (spot strike riskFreeRate volatility timeToMaturity : ℝ)
    (type : OptionType) (exerciseType : ExerciseType) (steps : ℕ) :
    Except PricingError (OptionBase × ℕ) :=
  (mkOption spot strike riskFreeRate volatility timeToMaturity type exerciseType).map
    (fun b => (b, steps))

/-- Node-value recursion written from the specification's description of the
lattice engine: terminal nodes carry the payoff; a node with `m + 1` steps
remaining carries `e^(-r*dt) * (p * V_up + (1-p) * V_down)` over the two
successor values, maximised with the immediate-exercise payoff for American
style; the price is the root value with `N` steps remaining.  (`i` counts
down-moves, so with `j = N - m` the node's underlying price is
`S * u^(j-i) * d^i`.) -/
def binomSpecNode (c : OptionBase) (N : ℕ) : ℕ → ℕ → ℝ
  | 0, i => payoff c.type c.strike
      (c.spot * binomU c.volatility c.timeToMaturity N ^ (N - i)
              * binomD c.volatility c.timeToMaturity N ^ i)
  | m + 1, i =>
      let continuation := Real.exp (-c.riskFreeRate * binomDt c.timeToMaturity N)
        * (binomP c.riskFreeRate c.volatility c.timeToMaturity N * binomSpecNode c N m i
           + (1 - binomP c.riskFreeRate c.volatility c.timeToMaturity N)
             * binomSpecNode c N m (i + 1))
      let exerciseNow := intrinsic c.type c.strike
        (c.spot * binomU c.volatility c.timeToMaturity N ^ (N - (m + 1) - i)
                * binomD c.volatility c.timeToMaturity N ^ i)
      if c.exerciseType = .American then max continuation exerciseNow else continuation

/-- Replace only the stored exercise style of a contract. -/
def withExercise (c : OptionBase) (ex : ExerciseType) : OptionBase :=
  { c with exerciseType := ex }

/-- `dx = volatility_ * sqrt(3.0 * dt)` in `TrinomialTreeOption::price`
(with `dt = timeToMaturity_ / steps_`). -/
def triDx (sigma tau : ℝ) (N : ℕ) : ℝ := sigma * Real.sqrt (3 * (tau / N))

/-- `u = exp(dx)` in `TrinomialTreeOption::price`. -/
def triU (sigma tau : ℝ) (N : ℕ) : ℝ := Real.exp (triDx sigma tau N)

/-- `pu` of `TrinomialTreeOption::price`. -/
def triPu (r sigma tau : ℝ) (N : ℕ) : ℝ :=
  let dx := triDx sigma tau N
  let dt := tau / N
  (Real.exp (r * dt / 2) - Real.exp (-dx / 2)) / (Real.exp (dx / 2) - Real.exp (-dx / 2))
    * (Real.exp (dx / 2) - 1) / (Real.exp (dx / 2) - Real.exp (-dx / 2))

/-- `pd` of `TrinomialTreeOption::price`. -/
def triPd (r sigma tau : ℝ) (N : ℕ) : ℝ :=
  let dx := triDx sigma tau N
  let dt := tau / N
  (Real.exp (dx / 2) - Real.exp (r * dt / 2)) / (Real.exp (dx / 2) - Real.exp (-dx / 2))
    * (1 - Real.exp (-dx / 2)) / (Real.exp (dx / 2) - Real.exp (-dx / 2))

/-- `pm = 1.0 - pu - pd` of `TrinomialTreeOption::price`. -/
def triPm (r sigma tau : ℝ) (N : ℕ) : ℝ :=
  1 - triPu r sigma tau N - triPd r sigma tau N

/-- The layers of `TrinomialTreeOption::price`, embedded with the exact array
indices of the source.  `triLayerCode c N m idx` is entry `idx` of the
`optionValues` vector after `m` backward iterations: after `m` iterations the
vector is `newOptionValues` of loop index `i = N - m`, of size `2*i + 1`
(the terminal vector, `m = 0`, has size `2*N + 1`).  A read outside the
vector's bounds is undefined behaviour in C++ and is modelled as `none`.
The backward iteration at loop index `i = N - (m+1)` stores into
`newOptionValues[j + i]` (here `idx = j + i`) the value
`discountFactor * (pu * optionValues[j+1+steps_] + pm * optionValues[j+steps_]
+ pd * optionValues[j-1+steps_])` — note the source indexes the previous
layer with the constant offset `steps_`, not that layer's own offset
`i + 1` — maximised with the immediate-exercise value at
`stockPrice = spot_ * pow(u, j)` for American style. -/
def triLayerCode (c : OptionBase) (N : ℕ) : ℕ → ℤ → Option ℝ
  | 0, idx =>
      if 0 ≤ idx ∧ idx ≤ 2 * (N : ℤ) then
        some (payoff c.type c.strike
          (c.spot * triU c.volatility c.timeToMaturity N ^ (idx - N)))
      else none
  | m + 1, idx =>
      let i : ℤ := (N : ℤ) - (m + 1)
      if 0 ≤ idx ∧ idx ≤ 2 * i then
        let j : ℤ := idx - i
        match triLayerCode c N m (j + 1 + N), triLayerCode c N m (j + N),
              triLayerCode c N m (j - 1 + N) with
        | some vu, some vm, some vd =>
            let stockPrice := c.spot * triU c.volatility c.timeToMaturity N ^ j
            let optionValue :=
              Real.exp (-c.riskFreeRate * (c.timeToMaturity / N))
                * (triPu c.riskFreeRate c.volatility c.timeToMaturity N * vu
                   + triPm c.riskFreeRate c.volatility c.timeToMaturity N * vm
                   + triPd c.riskFreeRate c.volatility c.timeToMaturity N * vd)
            some (if c.exerciseType = .American
                  then max optionValue (intrinsic c.type c.strike stockPrice)
                  else optionValue)
        | _, _, _ => none
      else none

/-- `TrinomialTreeOption::price`: run all `steps_` backward iterations and
return `optionValues[0]`; `none` when the run performs an out-of-bounds
vector read. -/
def trinomialTreePrice (c : OptionBase) (N : ℕ) : Option ℝ :=
  triLayerCode c N N 0

/-- `TrinomialTreeOption` constructor: forwards the six contract fields to the
base-class constructor (which validates them) and stores `steps_` unchecked. -/
def mkTrinomialTreeOption (spot strike riskFreeRate volatility timeToMaturity : ℝ)
    (type : OptionType) (exerciseType : ExerciseType) (steps : ℕ) :
    Except PricingError (OptionBase × ℕ) :=
  (mkOption spot strike riskFreeRate volatility timeToMaturity type exerciseType).map
    (fun b => (b, steps))

/-- `volLow = 0.001` in `ImpliedVolatilityCalculator::calculateImpliedVolatility`. -/
def ivVolLow : ℝ := 0.001

/-- `volHigh = 2.0` in `ImpliedVolatilityCalculator::calculateImpliedVolatility`. -/
def ivVolHigh : ℝ := 2.0

/-- The bisection loop of `calculateImpliedVolatility`, with the remaining
iteration count as fuel.  Entering an iteration, `vol` is the midpoint of the
current bracket `[volLow, volHigh]`; the oracle is evaluated at `vol`; within
tolerance returns `vol`; otherwise `volLow` (when `price < targetPrice`) or
`volHigh` (otherwise) is replaced by `vol` and `vol` becomes the midpoint of
the updated bracket.  Exhausting the fuel throws the non-convergence
`std::runtime_error`. -/
def ivBisect (targetPrice spot strike riskFreeRate timeToMaturity : ℝ)
    (type : OptionType) (tolerance : ℝ) :
    ℝ → ℝ → ℝ → ℕ → Except PricingError ℝ
  | _, _, _, 0 => .error .ivNoConvergence
  | volLow, volHigh, vol, n + 1 =>
      let price := bsPriceFormula spot strike riskFreeRate vol timeToMaturity type
      if |price - targetPrice| < tolerance then .ok vol
      else if price < targetPrice then
        ivBisect targetPrice spot strike riskFreeRate timeToMaturity type tolerance
          vol volHigh ((vol + volHigh) / 2) n
      else
        ivBisect targetPrice spot strike riskFreeRate timeToMaturity type tolerance
          volLow vol ((volLow + vol) / 2) n

/-- `ImpliedVolatilityCalculator::calculateImpliedVolatility`
(`BlackScholes.hpp` / `ImpliedVolatility.hpp`): evaluates the analytic oracle
at `volLow = 0.001` and `volHigh = 2.0`, throws the out-of-bounds
`std::runtime_error` when `targetPrice <= priceLow || targetPrice >= priceHigh`,
otherwise runs the bisection starting from the midpoint `(volLow+volHigh)/2`
with `maxIterations` iterations. -/
def calculateImpliedVolatility (targetPrice spot strike riskFreeRate timeToMaturity : ℝ)
    (type : OptionType) (tolerance : ℝ) (maxIterations : ℕ) :
    Except PricingError ℝ :=
  let priceLow := bsPriceFormula spot strike riskFreeRate ivVolLow timeToMaturity type
  let priceHigh := bsPriceFormula spot strike riskFreeRate ivVolHigh timeToMaturity type
  if targetPrice ≤ priceLow ∨ priceHigh ≤ targetPrice then .error .ivOutOfBounds
  else
    ivBisect targetPrice spot strike riskFreeRate timeToMaturity type tolerance
      ivVolLow ivVolHigh ((ivVolLow + ivVolHigh) / 2) maxIterations

/-- The pricer variants a `std::unique_ptr<Option>` returned by the factory
can point to. -/
inductive AnyOption where
  | blackScholes : OptionBase → AnyOption
  | binomial : OptionBase × ℕ → AnyOption
  | trinomial : OptionBase × ℕ → AnyOption

/-- `OptionFactory::createOption` (`OptionFactory.hpp`): dispatches on the
method string; for "BlackScholes" it first rejects American exercise with
`std::invalid_argument`, then constructs a `BlackScholesOption` (dropping the
step count); the tree methods forward everything including `steps`. -/
def createOption (spot strike riskFreeRate volatility timeToMaturity : ℝ)
    (type : OptionType) (exerciseType : ExerciseType)
    (pricingMethod : String) (steps : ℕ) : Except PricingError AnyOption :=
  if pricingMethod = "BlackScholes" then
    if exerciseType = .American then .error .bsFactoryOnlyEuropean
    else (mkBlackScholesOption spot strike riskFreeRate volatility timeToMaturity type).map
      AnyOption.blackScholes
  else if pricingMethod = "BinomialTree" then
    (mkBinomialTreeOption spot strike riskFreeRate volatility timeToMaturity
      type exerciseType steps).map AnyOption.binomial
  else if pricingMethod = "TrinomialTree" then
    (mkTrinomialTreeOption spot strike riskFreeRate volatility timeToMaturity
      type exerciseType steps).map AnyOption.trinomial
  else .error .unknownMethod

/-- C7: constructing any pricer with a non-positive spot, strike, volatility
or maturity raises `std::invalid_argument` during construction, so every
constructed instance satisfies the invariant; the risk-free rate is
unconstrained; and a constructed instance is exactly the frozen record of the
constructor arguments (the class exposes no mutator). -/
theorem construction_validates_contract (S K r sigma tau : ℝ)
    (ty : OptionType) (ex : ExerciseType) :
    (∀ o, mkOption S K r sigma tau ty ex = .ok o →
      0 < o.spot ∧ 0 < o.strike ∧ 0 < o.volatility ∧ 0 < o.timeToMaturity ∧
        o = ⟨S, K, r, sigma, tau, ty, ex⟩) ∧
    ((S ≤ 0 ∨ K ≤ 0 ∨ sigma ≤ 0 ∨ tau ≤ 0) →
      ∃ e, mkOption S K r sigma tau ty ex = .error e ∧ e.isInvalidArgument = true) ∧
    (0 < S → 0 < K → 0 < sigma → 0 < tau →
      mkOption S K r sigma tau ty ex = .ok ⟨S, K, r, sigma, tau, ty, ex⟩) := by
  refine ⟨?_, ?_, ?_⟩
  · intro o ho
    unfold mkOption at ho
    split_ifs at ho with h1 h2 h3 h4 <;> simp only [Except.ok.injEq] at ho
    subst ho
    exact ⟨lt_of_not_le h1, lt_of_not_le h2, lt_of_not_le h3, lt_of_not_le h4, rfl⟩
  · intro h
    unfold mkOption
    split_ifs with h1 h2 h3 h4
    · exact ⟨_, rfl, rfl⟩
    · exact ⟨_, rfl, rfl⟩
    · exact ⟨_, rfl, rfl⟩
    · exact ⟨_, rfl, rfl⟩
    · rcases h with h | h | h | h <;> [exact absurd h h1; exact absurd h h2;
        exact absurd h h3; exact absurd h h4]
  · intro hS hK hsig htau
    unfold mkOption
    rw [if_neg (not_le.mpr hS), if_neg (not_le.mpr hK),
        if_neg (not_le.mpr hsig), if_neg (not_le.mpr htau)]

/-- Witness for C7: a contract with a negative risk-free rate is accepted and
frozen as given. -/
theorem construction_validates_contract_witness :
    mkOption 100 100 (-(1/20)) (1/5) 1 .Call .American =
      .ok ⟨100, 100, -(1/20), 1/5, 1, .Call, .American⟩ :=
  (construction_validates_contract 100 100 (-(1/20)) (1/5) 1 .Call .American).2.2
    (by norm_num) (by norm_num) (by norm_num) (by norm_num)

/-- C8 counterexample: both lattice constructors accept a step count of zero —
with valid contract fields, construction with `steps = 0` returns a fully
constructed instance instead of raising an invalid-argument condition. -/
theorem zero_steps_construction_succeeds :
    mkBinomialTreeOption 100 100 (1/20) (1/5) 1 .Call .European 0 =
      .ok (⟨100, 100, 1/20, 1/5, 1, .Call, .European⟩, 0) ∧
    mkTrinomialTreeOption 100 100 (1/20) (1/5) 1 .Put .American 0 =
      .ok (⟨100, 100, 1/20, 1/5, 1, .Put, .American⟩, 0) := by
  constructor <;>
    norm_num [mkBinomialTreeOption, mkTrinomialTreeOption, mkOption, Except.map]

/-- C8 amended: neither lattice constructor validates the step count — for any
valid contract fields and any `steps` (including 0), construction succeeds and
stores `steps` unchecked; no invalid-argument condition is raised for `N = 0`
at construction time. -/
theorem construction_ignores_step_count (S K r sigma tau : ℝ)
    (ty : OptionType) (ex : ExerciseType) (steps : ℕ)
    (hS : 0 < S) (hK : 0 < K) (hsig : 0 < sigma) (htau : 0 < tau) :
    mkBinomialTreeOption S K r sigma tau ty ex steps =
      .ok (⟨S, K, r, sigma, tau, ty, ex⟩, steps) ∧
    mkTrinomialTreeOption S K r sigma tau ty ex steps =
      .ok (⟨S, K, r, sigma, tau, ty, ex⟩, steps) := by
  unfold mkBinomialTreeOption mkTrinomialTreeOption mkOption
  rw [if_neg (not_le.mpr hS), if_neg (not_le.mpr hK),
      if_neg (not_le.mpr hsig), if_neg (not_le.mpr htau)]
  exact ⟨rfl, rfl⟩

/-- Witness for the amended C8 at `steps = 0`. -/
theorem construction_ignores_step_count_witness :
    mkBinomialTreeOption 100 80 (1/20) (1/5) 1 .Put .European 0 =
      .ok (⟨100, 80, 1/20, 1/5, 1, .Put, .European⟩, 0) ∧
    mkTrinomialTreeOption 100 80 (1/20) (1/5) 1 .Put .European 0 =
      .ok (⟨100, 80, 1/20, 1/5, 1, .Put, .European⟩, 0) :=
  construction_ignores_step_count 100 80 (1/20) (1/5) 1 .Put .European 0
    (by norm_num) (by norm_num) (by norm_num) (by norm_num)

/-- C10: every constructed `BlackScholesOption` carries European exercise (the
constructor takes no style argument and pins European), so its `price()` never
takes the American-rejection branch and returns the closed-form price; the
model/style mismatch for "BlackScholes" with American exercise is raised by
the factory at creation time. -/
theorem blackScholes_always_european (S K r sigma tau : ℝ)
    (ty : OptionType) (steps : ℕ) :
    (∀ o, mkBlackScholesOption S K r sigma tau ty = .ok o →
      o.exerciseType = .European ∧
      blackScholesPrice o = .ok (bsPriceFormula S K r sigma tau ty)) ∧
    createOption S K r sigma tau ty .American "BlackScholes" steps =
      .error .bsFactoryOnlyEuropean := by
  constructor
  · intro o ho
    unfold mkBlackScholesOption mkOption at ho
    split_ifs at ho <;> simp only [Except.ok.injEq] at ho
    subst ho
    exact ⟨rfl, rfl⟩
  · unfold createOption
    rw [if_pos rfl, if_pos rfl]

/-- Witness for C10: concrete construction yields a European instance whose
`price()` returns the closed form, and the factory rejects the American
request. -/
theorem blackScholes_always_european_witness :
    (∀ o, mkBlackScholesOption 100 90 (1/20) (1/5) 1 .Call = .ok o →
      o.exerciseType = .European ∧
      blackScholesPrice o = .ok (bsPriceFormula 100 90 (1/20) (1/5) 1 .Call)) ∧
    createOption 100 90 (1/20) (1/5) 1 .Call .American "BlackScholes" 50 =
      .error .bsFactoryOnlyEuropean :=
  blackScholes_always_european 100 90 (1/20) (1/5) 1 .Call 50

/-- C3: the implied-volatility solver evaluates the oracle at
`volLow = 0.001` and `volHigh = 2.0` and fails with the out-of-bounds
condition — before any bisection iteration — exactly when the target price is
not strictly between the two bound prices (equality with a bound is
out-of-bounds); when the target lies strictly inside, it proceeds to the
bisection loop started at the midpoint volatility. -/
theorem impliedVol_bounds_guard (targetPrice S K r tau : ℝ)
    (ty : OptionType) (tol : ℝ) (maxIter : ℕ) :
    ((targetPrice ≤ bsPriceFormula S K r (0.001) tau ty ∨
        bsPriceFormula S K r (2.0) tau ty ≤ targetPrice) →
      calculateImpliedVolatility targetPrice S K r tau ty tol maxIter =
        .error .ivOutOfBounds) ∧
    ((bsPriceFormula S K r (0.001) tau ty < targetPrice ∧
        targetPrice < bsPriceFormula S K r (2.0) tau ty) →
      calculateImpliedVolatility targetPrice S K r tau ty tol maxIter =
        ivBisect targetPrice S K r tau ty tol ivVolLow ivVolHigh
          ((ivVolLow + ivVolHigh) / 2) maxIter) := by
  constructor
  · intro h
    unfold calculateImpliedVolatility
    rw [if_pos]
    exact h
  · intro h
    unfold calculateImpliedVolatility
    rw [if_neg]
    push_neg
    exact ⟨h.1, h.2⟩

/-- Witness for C3: a target price exactly equal to the price at the lower
volatility bound is rejected as out-of-bounds (the bounds are exclusive). -/
theorem impliedVol_bounds_guard_witness :
    calculateImpliedVolatility (bsPriceFormula 100 100 (1/20) (0.001) 1 .Call)
      100 100 (1/20) 1 .Call (1/1000000) 1000 = .error .ivOutOfBounds :=
  (impliedVol_bounds_guard (bsPriceFormula 100 100 (1/20) (0.001) 1 .Call)
    100 100 (1/20) 1 .Call (1/1000000) 1000).1 (Or.inl le_rfl)

/-- The in-place backward sweeps of the binomial tree compute exactly the
node-value recursion of the specification, layer by layer. -/
lemma binomLayer_eq_specNode (c : OptionBase) (N : ℕ) :
    ∀ k i, binomLayer c N k i = binomSpecNode c N k i := by
  intro k
  induction k with
  | zero => intro i; rfl
  | succ k ih =>
    intro i
    show binomStep c N (N - (k + 1)) (binomLayer c N k) i = _
    rw [binomSpecNode, binomStep]
    simp only [ih]

/-- C1: for every valid contract and step count, `BinomialTreeOption::price`
computes `dt = tau/N`, `u = e^(sigma*sqrt dt)`, `d = 1/u`,
`p = (e^(r*dt) - d)/(u - d)` (built into the embedded definitions), assigns
the terminal payoffs, performs the backward sweeps with discounted
`p`/`(1-p)`-weighted successor values and the American early-exercise
maximum, and returns the root value: the in-place loop equals the per-node
backward recursion stated by the specification. -/
theorem binomial_price_eq_spec (c : OptionBase) (N : ℕ)
    (hS : 0 < c.spot) (hK : 0 < c.strike) (hsig : 0 < c.volatility)
    (htau : 0 < c.timeToMaturity) (hN : 1 ≤ N) :
    binomialTreePrice c N = binomSpecNode c N N 0 :=
  binomLayer_eq_specNode c N N 0

/-- Witness for C1 at a concrete valid contract and three steps. -/
theorem binomial_price_eq_spec_witness :
    binomialTreePrice ⟨100, 100, 1/20, 1/5, 1, .Call, .European⟩ 3 =
      binomSpecNode ⟨100, 100, 1/20, 1/5, 1, .Call, .European⟩ 3 3 0 :=
  binomial_price_eq_spec ⟨100, 100, 1/20, 1/5, 1, .Call, .European⟩ 3
    (by norm_num) (by norm_num) (by norm_num) (by norm_num) (by norm_num)

/-- A successful bisection run returns a volatility whose oracle price meets
the tolerance. -/
lemma ivBisect_ok_tol (targetPrice S K r tau : ℝ) (ty : OptionType) (tol : ℝ) :
    ∀ n volLow volHigh vol v,
      ivBisect targetPrice S K r tau ty tol volLow volHigh vol n = .ok v →
      |bsPriceFormula S K r v tau ty - targetPrice| < tol := by
  intro n
  induction n with
  | zero => intro lo hi v v' h; exact absurd h (by simp [ivBisect])
  | succ n ih =>
    intro lo hi v v' h
    rw [ivBisect] at h
    split_ifs at h with h1 h2
    · simp only [Except.ok.injEq] at h
      subst h; exact h1
    · exact ih _ _ _ _ h
    · exact ih _ _ _ _ h

/-- A failed bisection run can only fail with the non-convergence condition. -/
lemma ivBisect_error_nonconv (targetPrice S K r tau : ℝ) (ty : OptionType) (tol : ℝ) :
    ∀ n volLow volHigh vol e,
      ivBisect targetPrice S K r tau ty tol volLow volHigh vol n = .error e →
      e = .ivNoConvergence := by
  intro n
  induction n with
  | zero =>
    intro lo hi v e h
    rw [ivBisect] at h
    exact (Except.error.inj h).symm
  | succ n ih =>
    intro lo hi v e h
    rw [ivBisect] at h
    split_ifs at h with h1 h2
    · exact ih _ _ _ _ h
    · exact ih _ _ _ _ h

/-- C4: once the bounds check passes the solver runs the bisection loop; the
loop evaluates the oracle at the current midpoint and returns it when within
tolerance (so any returned volatility meets the tolerance); when the oracle
midpoint price misses the tolerance it narrows the bracket, replacing the low
end with the midpoint when the price is below the target and the high end
otherwise; a run whose iteration budget reaches zero fails with the
non-convergence condition, the only error the loop can produce, and that
condition is distinct from the out-of-bounds condition. -/
theorem impliedVol_bisection_behaviour (targetPrice S K r tau : ℝ)
    (ty : OptionType) (tol : ℝ) :
    (∀ n volLow volHigh vol v,
        ivBisect targetPrice S K r tau ty tol volLow volHigh vol n = .ok v →
        |bsPriceFormula S K r v tau ty - targetPrice| < tol) ∧
    (∀ volLow volHigh vol,
        ivBisect targetPrice S K r tau ty tol volLow volHigh vol 0 =
          .error .ivNoConvergence) ∧
    (∀ n volLow volHigh vol e,
        ivBisect targetPrice S K r tau ty tol volLow volHigh vol n = .error e →
        e = .ivNoConvergence) ∧
    PricingError.ivNoConvergence ≠ PricingError.ivOutOfBounds ∧
    (∀ n volLow volHigh vol,
        ¬ |bsPriceFormula S K r vol tau ty - targetPrice| < tol →
        ivBisect targetPrice S K r tau ty tol volLow volHigh vol (n + 1) =
          if bsPriceFormula S K r vol tau ty < targetPrice then
            ivBisect targetPrice S K r tau ty tol vol volHigh
              ((vol + volHigh) / 2) n
          else
            ivBisect targetPrice S K r tau ty tol volLow vol
              ((volLow + vol) / 2) n) := by
  refine ⟨ivBisect_ok_tol targetPrice S K r tau ty tol, fun _ _ _ => rfl,
    ivBisect_error_nonconv targetPrice S K r tau ty tol, by decide, ?_⟩
  intro n lo hi v hmiss
  rw [ivBisect, if_neg hmiss]

/-- Witness for C4: with a zero iteration budget the loop reports
non-convergence at concrete inputs. -/
theorem impliedVol_bisection_behaviour_witness :
    ivBisect 10 100 100 (1/20) 1 .Call (1/1000000) (0.001) (2.0) 1 0 =
      .error .ivNoConvergence :=
  (impliedVol_bisection_behaviour 10 100 100 (1/20) 1 .Call (1/1000000)).2.1
    (0.001) (2.0) 1

/-- C2 evidence: at `N = 2` the trinomial pricer's backward loop indexes the
previous layer with the fixed offset `steps_` although that layer's offset is
`i + 1`; at loop index `i = 0` it reads position `j + 1 + steps_ = 3` of a
vector of size `2*i(prev) + 1 = 3` (valid positions 0..2) — an out-of-bounds
read, so the run has no defined result. -/
theorem trinomial_price_oob_at_two_steps :
    trinomialTreePrice ⟨100, 100, 1/20, 1/5, 1, .Call, .European⟩ 2 = none := by
  norm_num [trinomialTreePrice, triLayerCode]

/-- Sanity check of the trinomial embedding: at a single step the backward
loop only reads the terminal layer, whose offset matches `steps_`, so the run
is well defined. -/
lemma trinomial_price_defined_at_one_step :
    (trinomialTreePrice ⟨100, 100, 1/20, 1/5, 1, .Call, .European⟩ 1).isSome = true := by
  norm_num [trinomialTreePrice, triLayerCode]

/-- The Gaussian interval integral is odd in its upper limit. -/
lemma gaussInt_neg (x : ℝ) :
    (∫ t in (0:ℝ)..(-x), Real.exp (-t ^ 2)) = -∫ t in (0:ℝ)..x, Real.exp (-t ^ 2) := by
  have h1 : (∫ t in (0:ℝ)..x, Real.exp (-(-t) ^ 2)) =
      ∫ t in (-x:ℝ)..(-0:ℝ), Real.exp (-t ^ 2) :=
    intervalIntegral.integral_comp_neg (fun t => Real.exp (-t ^ 2))
  simp only [neg_neg, neg_sq, neg_zero] at h1
  rw [intervalIntegral.integral_symm]
  rw [h1]

/-- The error function is odd. -/
lemma erf_neg (x : ℝ) : erf (-x) = -erf x := by
  unfold erf
  rw [gaussInt_neg]
  ring

/-- The cumulative normal of the embedding satisfies
`normalCDF x + normalCDF (-x) = 1`. -/
lemma normalCDF_add_neg (x : ℝ) : normalCDF x + normalCDF (-x) = 1 := by
  unfold normalCDF
  rw [neg_div, erf_neg]
  ring

/-- C5: for every valid parameter set, the analytic call price minus the
analytic put price equals `S - K * e^(-r*tau)` exactly, over the real-valued
embedding in which `normalCDF x + normalCDF (-x) = 1`. -/
theorem put_call_parity (S K r sigma tau : ℝ)
    (hS : 0 < S) (hK : 0 < K) (hsig : 0 < sigma) (htau : 0 < tau) :
    bsPriceFormula S K r sigma tau .Call - bsPriceFormula S K r sigma tau .Put =
      S - K * Real.exp (-r * tau) := by
  have h1 := normalCDF_add_neg (bsD1 S K r sigma tau)
  have h2 := normalCDF_add_neg (bsD2 S K r sigma tau)
  simp only [bsPriceFormula]
  linear_combination S * h1 - K * Real.exp (-r * tau) * h2

/-- Witness for C5 at the spec's example parameters. -/
theorem put_call_parity_witness :
    bsPriceFormula 100 100 (1/20) (1/5) 1 .Call -
        bsPriceFormula 100 100 (1/20) (1/5) 1 .Put =
      100 - 100 * Real.exp (-(1/20) * 1) :=
  put_call_parity 100 100 (1/20) (1/5) 1 (by norm_num) (by norm_num)
    (by norm_num) (by norm_num)

/-- When the risk-neutral weight `p` and its complement `1 - p` are both
nonnegative, every backward layer of the American run dominates the
corresponding layer of the European run pointwise. -/
lemma binomLayer_euro_le_amer (c : OptionBase) (N : ℕ)
    (hp0 : 0 ≤ binomP c.riskFreeRate c.volatility c.timeToMaturity N)
    (hp1 : binomP c.riskFreeRate c.volatility c.timeToMaturity N ≤ 1) :
    ∀ k i, binomLayer (withExercise c .European) N k i ≤
      binomLayer (withExercise c .American) N k i := by
  intro k
  induction k with
  | zero => intro i; exact le_of_eq rfl
  | succ k ih =>
    intro i
    show binomStep (withExercise c .European) N (N - (k + 1))
        (binomLayer (withExercise c .European) N k) i ≤
      binomStep (withExercise c .American) N (N - (k + 1))
        (binomLayer (withExercise c .American) N k) i
    unfold binomStep
    rw [if_neg (by simp [withExercise]), if_pos (by simp [withExercise])]
    refine le_trans ?_ (le_max_left _ _)
    have hE : (0:ℝ) ≤ Real.exp (-(withExercise c .European).riskFreeRate
        * binomDt (withExercise c .European).timeToMaturity N) := (Real.exp_pos _).le
    refine mul_le_mul_of_nonneg_left ?_ hE
    exact add_le_add (mul_le_mul_of_nonneg_left (ih i) hp0)
      (mul_le_mul_of_nonneg_left (ih (i + 1)) (sub_nonneg.mpr hp1))

/-- C6 amended: for every valid contract and step count whose risk-neutral
probability `p = (e^(r*dt) - d)/(u - d)` lies in `[0, 1]` (so that the
backward combination is a true convex combination — automatic for `r = 0` and
more generally whenever `d <= e^(r*dt) <= u`), the American binomial price
dominates the European binomial price with all other parameters equal, for
both calls and puts. -/
theorem american_ge_european_binomial (c : OptionBase) (N : ℕ)
    (hS : 0 < c.spot) (hK : 0 < c.strike) (hsig : 0 < c.volatility)
    (htau : 0 < c.timeToMaturity) (hN : 1 ≤ N)
    (hp0 : 0 ≤ binomP c.riskFreeRate c.volatility c.timeToMaturity N)
    (hp1 : binomP c.riskFreeRate c.volatility c.timeToMaturity N ≤ 1) :
    binomialTreePrice (withExercise c .European) N ≤
      binomialTreePrice (withExercise c .American) N :=
  binomLayer_euro_le_amer c N hp0 hp1 N 0

/-- At the witness parameters (`r = 0`, `sigma = 1/5`, `tau = 1`, `N = 1`)
the risk-neutral probability lies in the unit interval. -/
lemma binomP_unit_at_witness : 0 ≤ binomP 0 (1/5) 1 1 ∧ binomP 0 (1/5) 1 1 ≤ 1 := by
  have hdt : binomDt 1 1 = 1 := by norm_num [binomDt]
  have hu : binomU (1/5) 1 1 = Real.exp (1/5) := by
    rw [binomU, hdt, Real.sqrt_one, mul_one]
  have hd : binomD (1/5) 1 1 = (Real.exp (1/5))⁻¹ := by rw [binomD, hu, one_div]
  have hu1 : (1:ℝ) < Real.exp (1/5) := by rw [Real.one_lt_exp_iff]; norm_num
  have hd1 : (Real.exp (1/5))⁻¹ < 1 := inv_lt_one_of_one_lt₀ hu1
  have hd0 : (0:ℝ) < (Real.exp (1/5))⁻¹ := inv_pos.mpr (Real.exp_pos _)
  have hnum : binomP 0 (1/5) 1 1 =
      (1 - (Real.exp (1/5))⁻¹) / (Real.exp (1/5) - (Real.exp (1/5))⁻¹) := by
    rw [binomP, hdt, hu, hd, zero_mul, Real.exp_zero]
  constructor
  · rw [hnum]
    exact div_nonneg (by linarith) (by linarith)
  · rw [hnum]
    rw [div_le_one (by linarith)]
    linarith

/-- Witness for the amended C6: an at-the-money put with zero rate at one
step. -/
theorem american_ge_european_binomial_witness :
    binomialTreePrice (withExercise ⟨100, 100, 0, 1/5, 1, .Put, .European⟩ .European) 1 ≤
      binomialTreePrice (withExercise ⟨100, 100, 0, 1/5, 1, .Put, .European⟩ .American) 1 :=
  american_ge_european_binomial ⟨100, 100, 0, 1/5, 1, .Put, .European⟩ 1
    (by norm_num) (by norm_num) (by norm_num) (by norm_num) (by norm_num)
    binomP_unit_at_witness.1 binomP_unit_at_witness.2

/-- C6 counterexample: for the valid contract `S = K = 100`, `r = 1`,
`sigma = 1/5`, `tau = 2` (a 100% rate is allowed: the invariant leaves the
rate unconstrained) at `N = 2` steps, the risk-neutral weight satisfies
`p > 1`, the backward combination is not monotone, and the American put price
(which is 0) is strictly below the European put price (which is positive):
the claim's unrestricted "American >= European" fails on the code. -/
theorem american_lt_european_binomial_cex :
    binomialTreePrice ⟨100, 100, 1, 1/5, 2, .Put, .American⟩ 2 <
      binomialTreePrice ⟨100, 100, 1, 1/5, 2, .Put, .European⟩ 2 := by
  have hdt : binomDt 2 2 = 1 := by norm_num [binomDt]
  have hu : binomU (1/5) 2 2 = Real.exp (1/5) := by
    rw [binomU, hdt, Real.sqrt_one, mul_one]
  have hd : binomD (1/5) 2 2 = (Real.exp (1/5))⁻¹ := by rw [binomD, hu, one_div]
  have hu1 : (1:ℝ) < Real.exp (1/5) := by rw [Real.one_lt_exp_iff]; norm_num
  have hu0 : (0:ℝ) < Real.exp (1/5) := Real.exp_pos _
  have hd1 : (Real.exp (1/5))⁻¹ < 1 := inv_lt_one_of_one_lt₀ hu1
  have hd0 : (0:ℝ) < (Real.exp (1/5))⁻¹ := inv_pos.mpr hu0
  have hP1 : 1 < binomP 1 (1/5) 2 2 := by
    rw [binomP, hdt, hu, hd, one_mul]
    rw [one_lt_div (by linarith)]
    have he : Real.exp (1/5) < Real.exp 1 := Real.exp_lt_exp.mpr (by norm_num)
    linarith
  have hdisc : (0:ℝ) < Real.exp (-(1:ℝ) * binomDt 2 2) := Real.exp_pos _
  -- terminal layer (shared by both contracts)
  have hT0 : binomTerminal ⟨100, 100, 1, 1/5, 2, .Put, .American⟩ 2 0 = 0 := by
    show max 0 (100 - 100 * binomU (1/5) 2 2 ^ 2 * binomD (1/5) 2 2 ^ 0) = 0
    rw [hu, hd, pow_zero, mul_one, pow_two]
    refine max_eq_left ?_
    nlinarith
  have hT1 : binomTerminal ⟨100, 100, 1, 1/5, 2, .Put, .American⟩ 2 1 = 0 := by
    show max 0 (100 - 100 * binomU (1/5) 2 2 ^ 1 * binomD (1/5) 2 2 ^ 1) = 0
    rw [hu, hd, pow_one, pow_one, mul_assoc, mul_inv_cancel₀ (ne_of_gt hu0), mul_one]
    norm_num
  have hT2 : binomTerminal ⟨100, 100, 1, 1/5, 2, .Put, .American⟩ 2 2 =
      100 - 100 * (Real.exp (1/5))⁻¹ ^ 2 := by
    show max 0 (100 - 100 * binomU (1/5) 2 2 ^ 0 * binomD (1/5) 2 2 ^ 2) = _
    rw [hu, hd, pow_zero, mul_one]
    refine max_eq_right ?_
    nlinarith
  have hTE0 : binomTerminal ⟨100, 100, 1, 1/5, 2, .Put, .European⟩ 2 0 = 0 := hT0
  have hTE1 : binomTerminal ⟨100, 100, 1, 1/5, 2, .Put, .European⟩ 2 1 = 0 := hT1
  have hTE2 : binomTerminal ⟨100, 100, 1, 1/5, 2, .Put, .European⟩ 2 2 =
      100 - 100 * (Real.exp (1/5))⁻¹ ^ 2 := hT2
  have hA0 : (0:ℝ) < 100 - 100 * (Real.exp (1/5))⁻¹ ^ 2 := by nlinarith
  -- layer 1, American contract
  have hL1A0 : binomLayer ⟨100, 100, 1, 1/5, 2, .Put, .American⟩ 2 1 0 = 0 := by
    show max (Real.exp (-(1:ℝ) * binomDt 2 2) * (binomP 1 (1/5) 2 2 *
        binomTerminal ⟨100, 100, 1, 1/5, 2, .Put, .American⟩ 2 0 +
        (1 - binomP 1 (1/5) 2 2) *
        binomTerminal ⟨100, 100, 1, 1/5, 2, .Put, .American⟩ 2 1))
      (100 - 100 * binomU (1/5) 2 2 ^ 1 * binomD (1/5) 2 2 ^ 0) = 0
    rw [hT0, hT1, hu, hd, pow_one, pow_zero, mul_one, mul_zero, mul_zero,
        add_zero, mul_zero]
    refine max_eq_left ?_
    nlinarith
  have hL1A1 : binomLayer ⟨100, 100, 1, 1/5, 2, .Put, .American⟩ 2 1 1 =
      100 - 100 * (Real.exp (1/5))⁻¹ := by
    show max (Real.exp (-(1:ℝ) * binomDt 2 2) * (binomP 1 (1/5) 2 2 *
        binomTerminal ⟨100, 100, 1, 1/5, 2, .Put, .American⟩ 2 1 +
        (1 - binomP 1 (1/5) 2 2) *
        binomTerminal ⟨100, 100, 1, 1/5, 2, .Put, .American⟩ 2 2))
      (100 - 100 * binomU (1/5) 2 2 ^ 0 * binomD (1/5) 2 2 ^ 1) = _
    rw [hT1, hT2, hu, hd, pow_zero, pow_one, mul_zero, zero_add, mul_one]
    refine max_eq_right ?_
    have hneg : Real.exp (-(1:ℝ) * binomDt 2 2) *
        ((1 - binomP 1 (1/5) 2 2) * (100 - 100 * (Real.exp (1/5))⁻¹ ^ 2)) ≤ 0 := by
      have h1 : (1 - binomP 1 (1/5) 2 2) * (100 - 100 * (Real.exp (1/5))⁻¹ ^ 2) ≤ 0 :=
        mul_nonpos_of_nonpos_of_nonneg (by linarith) (le_of_lt hA0)
      exact mul_nonpos_of_nonneg_of_nonpos (le_of_lt hdisc) h1
    nlinarith
  -- layer 1, European contract
  have hL1E0 : binomLayer ⟨100, 100, 1, 1/5, 2, .Put, .European⟩ 2 1 0 = 0 := by
    show Real.exp (-(1:ℝ) * binomDt 2 2) * (binomP 1 (1/5) 2 2 *
        binomTerminal ⟨100, 100, 1, 1/5, 2, .Put, .European⟩ 2 0 +
        (1 - binomP 1 (1/5) 2 2) *
        binomTerminal ⟨100, 100, 1, 1/5, 2, .Put, .European⟩ 2 1) = 0
    rw [hTE0, hTE1]
    ring
  have hL1E1 : binomLayer ⟨100, 100, 1, 1/5, 2, .Put, .European⟩ 2 1 1 =
      Real.exp (-(1:ℝ) * binomDt 2 2) *
        ((1 - binomP 1 (1/5) 2 2) * (100 - 100 * (Real.exp (1/5))⁻¹ ^ 2)) := by
    show Real.exp (-(1:ℝ) * binomDt 2 2) * (binomP 1 (1/5) 2 2 *
        binomTerminal ⟨100, 100, 1, 1/5, 2, .Put, .European⟩ 2 1 +
        (1 - binomP 1 (1/5) 2 2) *
        binomTerminal ⟨100, 100, 1, 1/5, 2, .Put, .European⟩ 2 2) = _
    rw [hTE1, hTE2]
    ring
  -- roots
  have hRootA : binomialTreePrice ⟨100, 100, 1, 1/5, 2, .Put, .American⟩ 2 = 0 := by
    show max (Real.exp (-(1:ℝ) * binomDt 2 2) * (binomP 1 (1/5) 2 2 *
        binomLayer ⟨100, 100, 1, 1/5, 2, .Put, .American⟩ 2 1 0 +
        (1 - binomP 1 (1/5) 2 2) *
        binomLayer ⟨100, 100, 1, 1/5, 2, .Put, .American⟩ 2 1 1))
      (100 - 100 * binomU (1/5) 2 2 ^ 0 * binomD (1/5) 2 2 ^ 0) = 0
    rw [hL1A0, hL1A1, pow_zero, pow_zero, mul_zero, zero_add]
    have hB0 : (0:ℝ) ≤ 100 - 100 * (Real.exp (1/5))⁻¹ := by linarith
    have hcont : Real.exp (-(1:ℝ) * binomDt 2 2) *
        ((1 - binomP 1 (1/5) 2 2) * (100 - 100 * (Real.exp (1/5))⁻¹)) ≤ 0 :=
      mul_nonpos_of_nonneg_of_nonpos (le_of_lt hdisc)
        (mul_nonpos_of_nonpos_of_nonneg (by linarith) hB0)
    rw [show (100:ℝ) - 100 * 1 * 1 = 0 by norm_num]
    exact max_eq_right hcont
  have hRootE : binomialTreePrice ⟨100, 100, 1, 1/5, 2, .Put, .European⟩ 2 =
      Real.exp (-(1:ℝ) * binomDt 2 2) * ((1 - binomP 1 (1/5) 2 2) *
        (Real.exp (-(1:ℝ) * binomDt 2 2) *
          ((1 - binomP 1 (1/5) 2 2) * (100 - 100 * (Real.exp (1/5))⁻¹ ^ 2)))) := by
    show Real.exp (-(1:ℝ) * binomDt 2 2) * (binomP 1 (1/5) 2 2 *
        binomLayer ⟨100, 100, 1, 1/5, 2, .Put, .European⟩ 2 1 0 +
        (1 - binomP 1 (1/5) 2 2) *
        binomLayer ⟨100, 100, 1, 1/5, 2, .Put, .European⟩ 2 1 1) = _
    rw [hL1E0, hL1E1]
    ring
  rw [hRootA, hRootE]
  have hq : 1 - binomP 1 (1/5) 2 2 < 0 := by linarith
  have hinner : Real.exp (-(1:ℝ) * binomDt 2 2) *
      ((1 - binomP 1 (1/5) 2 2) * (100 - 100 * (Real.exp (1/5))⁻¹ ^ 2)) < 0 :=
    mul_neg_of_pos_of_neg hdisc (mul_neg_of_neg_of_pos hq hA0)
  exact mul_pos hdisc (mul_pos_of_neg_of_neg hq hinner)

end OptionsPricing
